import Mathlib

/-!
Shallow embedding of the `optimus-rs` library (src/src/optimus.rs,
src/src/error.rs, src/examples/demo.rs).

Rust `u64` values are embedded as `ℕ`; the wrapping `u64` multiplication
inside `encode`/`decode` is made explicit with `% U64SIZE`.  The two
external crate functions `primal_check::miller_rabin` and
`modinverse::modinverse` are not part of the repository sources and are
modelled from the spec (§4.1, §4.2).
-/

/-- `MAX_INT` from optimus.rs: `i32::MAX as u64 = 2^31 - 1`. -/
def MAX_INT : ℕ := 2147483647

/-- The modulus of the transform, `MAX_INT + 1 = 2^31`. -/
def MAX : ℕ := MAX_INT + 1

/-- The size of the `u64` value space; Rust release-mode multiplication wraps
modulo this. -/
def U64SIZE : ℕ := 2 ^ 64

/-- Modelled from the spec: `primal_check::miller_rabin` is an external crate,
absent from the repository sources.  §4.1 specifies that it returns true iff
the candidate is prime (the Miller-Rabin test is deterministic, i.e. exact,
for the practical input width). -/
def miller_rabin (n : ℕ) : Bool := decide (Nat.Prime n)

/-- Modelled from the spec: the recursive extended Euclidean algorithm of the
external `modinverse` crate (§4.2), `egcd(a, b) = (g, x, y)` with
`g = gcd a b` and `x*a + y*b = g`.  First argument and gcd stay in `ℕ`
(they are nonnegative throughout for nonnegative inputs); the Bezout
coefficients are integers. -/
def egcd : ℕ → ℕ → ℕ × ℤ × ℤ
  | 0, b => (b, 0, 1)
  | a + 1, b =>
    let p := egcd (b % (a + 1)) (a + 1)
    (p.1, p.2.2 - (b / (a + 1) : ℤ) * p.2.1, p.2.1)
termination_by a => a
decreasing_by exact Nat.mod_lt _ (Nat.succ_pos a)

/-- Modelled from the spec: `modinverse::modinverse(a, m)` from the external
`modinverse` crate (§4.2): run `egcd`, fail when `gcd a m ≠ 1`, otherwise
normalise the Bezout coefficient of `a` into `[0, m)`. -/
def modinverse (a m : ℕ) : Option ℕ :=
  let p := egcd a m
  if p.1 ≠ 1 then none
  else some (((p.2.1 % (m : ℤ) + m) % m).toNat)

/-- The error enum from src/src/error.rs. -/
inductive OptimusError where
  | NotPrime
  | NoModInverse
deriving DecidableEq, Repr

/-- The `Optimus` struct from src/src/optimus.rs. -/
structure Optimus where
  prime : ℕ
  mod_inverse : ℕ
  random : ℕ
deriving DecidableEq, Repr

namespace Optimus

/-- `Optimus::new` from src/src/optimus.rs: reject a non-prime `prime`,
otherwise store the three arguments unchanged. -/
def new (prime mod_inverse random : ℕ) : Except OptimusError Optimus :=
  if miller_rabin prime then
    .ok ⟨prime, mod_inverse, random⟩
  else
    .error .NotPrime

/-- `Optimus::calc_mod_inverse` from src/src/optimus.rs: re-check primality,
then compute the inverse modulo `MAX_INT + 1` via the `modinverse` crate. -/
def calc_mod_inverse (prime : ℕ) : Except OptimusError ℕ :=
  if ¬ miller_rabin prime then
    .error .NotPrime
  else
    match modinverse prime MAX with
    | none => .error .NoModInverse
    | some x => .ok x

/-- `Optimus::new_calculated` from src/src/optimus.rs:
`Self::new(prime, Self::calc_mod_inverse(prime)?, random)`. -/
def new_calculated (prime random : ℕ) : Except OptimusError Optimus :=
  match calc_mod_inverse prime with
  | .error e => .error e
  | .ok mi => new prime mi random

/-- `Optimus::encode` from src/src/optimus.rs:
`((n * self.prime) & MAX_INT) ^ self.random`, the `u64` product wrapping. -/
def encode (o : Optimus) (n : ℕ) : ℕ :=
  ((n * o.prime) % U64SIZE &&& MAX_INT) ^^^ o.random

/-- `Optimus::decode` from src/src/optimus.rs:
`((n ^ self.random) * self.mod_inverse) & MAX_INT`, the `u64` product
wrapping. -/
def decode (o : Optimus) (n : ℕ) : ℕ :=
  ((n ^^^ o.random) * o.mod_inverse % U64SIZE) &&& MAX_INT

end Optimus

/-- Trial-division helper used only in proofs: `true` when no `d` in
`[lo, lo + len)` divides `n`.  The range is split in halves so that the
recursion depth is `fuel`, which the kernel can evaluate; exhausted fuel
with a nonempty range yields `false`, keeping the function sound without
any side condition on `fuel`. -/
def noDivIn (fuel : ℕ) (n lo len : ℕ) : Bool :=
  match fuel with
  | 0 => decide (len = 0)
  | fuel + 1 =>
    if len = 0 then true
    else if len = 1 then decide (n % lo ≠ 0)
    else noDivIn fuel n lo (len / 2) && noDivIn fuel n (lo + len / 2) (len - len / 2)

theorem noDivIn_sound (fuel : ℕ) : ∀ n lo len, noDivIn fuel n lo len = true →
    ∀ i, i < len → ¬ (lo + i) ∣ n := by
  induction fuel with
  | zero =>
    intro n lo len h i hi
    simp only [noDivIn, decide_eq_true_eq] at h
    omega
  | succ fuel ih =>
    intro n lo len h i hi
    simp only [noDivIn] at h
    by_cases h0 : len = 0
    · omega
    · rw [if_neg h0] at h
      by_cases h1 : len = 1
      · rw [if_pos h1] at h
        simp only [decide_eq_true_eq] at h
        have hi0 : i = 0 := by omega
        subst hi0
        rw [Nat.add_zero]
        intro hdvd
        obtain ⟨c, rfl⟩ := hdvd
        exact h (Nat.mul_mod_right lo c)
      · rw [if_neg h1, Bool.and_eq_true] at h
        by_cases hsplit : i < len / 2
        · exact ih n lo (len / 2) h.1 i hsplit
        · have := ih n (lo + len / 2) (len - len / 2) h.2 (i - len / 2) (by omega)
          have harith : lo + len / 2 + (i - len / 2) = lo + i := by omega
          rwa [harith] at this

/-- A number with no divisor in `[2, B]` and at most `(B+1)^2 - 1` is prime. -/
theorem prime_of_noDivIn (n B fuel : ℕ) (h2 : 2 ≤ n)
    (hB : n < (B + 1) * (B + 1)) (h : noDivIn fuel n 2 (B - 1) = true) :
    Nat.Prime n := by
  rw [Nat.prime_def_le_sqrt]
  refine ⟨h2, fun m hm hms => ?_⟩
  have hsq : Nat.sqrt n < B + 1 := Nat.sqrt_lt.2 hB
  have hmB : m ≤ B := le_trans hms (by omega)
  have := noDivIn_sound fuel n 2 (B - 1) h (m - 2) (by omega)
  have harith : 2 + (m - 2) = m := by omega
  rwa [harith] at this

theorem mr_eq_true_iff (n : ℕ) : miller_rabin n = true ↔ Nat.Prime n := by
  simp [miller_rabin]

theorem mr_eq_false_iff (n : ℕ) : miller_rabin n = false ↔ ¬ Nat.Prime n := by
  simp [miller_rabin]

set_option maxHeartbeats 4000000 in
theorem prime_1580030173 : Nat.Prime 1580030173 :=
  prime_of_noDivIn 1580030173 39749 17 (by norm_num) (by norm_num) (by decide)

theorem prime_309779747 : Nat.Prime 309779747 :=
  prime_of_noDivIn 309779747 17600 17 (by norm_num) (by norm_num) (by decide)

theorem MAX_eq : MAX = 2 ^ 31 := by norm_num [MAX, MAX_INT]

theorem and_MAX_INT (x : ℕ) : x &&& MAX_INT = x % MAX := by
  have h : MAX_INT = 2 ^ 31 - 1 := by norm_num [MAX_INT]
  rw [h, MAX_eq]
  exact Nat.and_pow_two_sub_one_eq_mod x 31

theorem mod_u64_max (x : ℕ) : x % U64SIZE % MAX = x % MAX := by
  rw [MAX_eq]
  exact Nat.mod_mod_of_dvd x (pow_dvd_pow 2 (by norm_num))

/-- The masked multiplicative step of `encode` equals exact reduction
modulo `2^31`, wrapping `u64` arithmetic notwithstanding, because
`2^31` divides `2^64`. -/
theorem encode_eq_mod (o : Optimus) (n : ℕ) :
    o.encode n = ((n * o.prime) % MAX) ^^^ o.random := by
  rw [Optimus.encode, and_MAX_INT, mod_u64_max]

theorem decode_eq_mod (o : Optimus) (n : ℕ) :
    o.decode n = ((n ^^^ o.random) * o.mod_inverse) % MAX := by
  rw [Optimus.decode, and_MAX_INT, mod_u64_max]

theorem decode_encode_of_inverse (o : Optimus) (n : ℕ)
    (hinv : (o.prime * o.mod_inverse) % MAX = 1) (hn : n ≤ MAX_INT) :
    o.decode (o.encode n) = n := by
  rw [encode_eq_mod, decode_eq_mod, Nat.xor_cancel_right]
  have hlt : n < MAX := by
    have : MAX = MAX_INT + 1 := rfl
    omega
  calc (n * o.prime) % MAX * o.mod_inverse % MAX
      = n * o.prime * o.mod_inverse % MAX := Nat.mod_mul_mod
    _ = n * (o.prime * o.mod_inverse) % MAX := by rw [Nat.mul_assoc]
    _ = n % MAX * ((o.prime * o.mod_inverse) % MAX) % MAX := Nat.mul_mod _ _ _
    _ = n % MAX % MAX := by rw [hinv, Nat.mul_one]
    _ = n % MAX := Nat.mod_mod_of_dvd n dvd_rfl
    _ = n := Nat.mod_eq_of_lt hlt

theorem encode_le_MAX_INT (o : Optimus) (n : ℕ) (hr : o.random ≤ MAX_INT) :
    o.encode n ≤ MAX_INT := by
  rw [encode_eq_mod]
  have h1 : (n * o.prime) % MAX < 2 ^ 31 := MAX_eq ▸ Nat.mod_lt _ (by rw [MAX_eq]; norm_num)
  have h2 : o.random < 2 ^ 31 := by
    have : MAX_INT = 2 ^ 31 - 1 := by norm_num [MAX_INT]
    omega
  have := Nat.xor_lt_two_pow h1 h2
  have hM : MAX_INT = 2 ^ 31 - 1 := by norm_num [MAX_INT]
  omega

theorem egcd_spec (a : ℕ) : ∀ b : ℕ, (egcd a b).1 = Nat.gcd a b ∧
    ((egcd a b).2.1 * a + (egcd a b).2.2 * b : ℤ) = (Nat.gcd a b : ℤ) := by
  induction a using Nat.strong_induction_on with
  | _ a ih =>
    intro b
    match a with
    | 0 =>
      rw [egcd]
      simp [Nat.gcd_zero_left]
    | a + 1 =>
      have hrec := ih (b % (a + 1)) (Nat.mod_lt _ (Nat.succ_pos a)) (a + 1)
      have hgcd : Nat.gcd (a + 1) b = Nat.gcd (b % (a + 1)) (a + 1) :=
        Nat.gcd_rec (a + 1) b
      rcases hE : egcd (b % (a + 1)) (a + 1) with ⟨g, x, y⟩
      rw [hE] at hrec
      simp only [Prod.fst, Prod.snd] at hrec
      obtain ⟨hg, hbez⟩ := hrec
      have hdm : ((a + 1 : ℕ) : ℤ) * ((b / (a + 1) : ℕ) : ℤ) + ((b % (a + 1) : ℕ) : ℤ)
          = (b : ℤ) := by
        exact_mod_cast Nat.div_add_mod b (a + 1)
      constructor
      · simp only [egcd, hE]
        rw [hgcd]
        exact hg
      · simp only [egcd, hE, hgcd]
        push_cast at hbez hdm ⊢
        linear_combination hbez - x * hdm

theorem modinverse_eq_some (a m : ℕ) (hm : 2 ≤ m) (hcop : Nat.gcd a m = 1) :
    ∃ x, modinverse a m = some x ∧ x < m ∧ (a * x) % m = 1 := by
  have hspec := egcd_spec a m
  have hg : (egcd a m).1 = 1 := by rw [hspec.1, hcop]
  have hmz : (m : ℤ) ≠ 0 := by positivity
  have hmpos : (0 : ℤ) < m := by positivity
  set X := (egcd a m).2.1 with hX
  set Y := (egcd a m).2.2 with hY
  have hbez : X * a + Y * m = 1 := by
    have := hspec.2
    rw [hcop] at this
    push_cast at this
    exact this
  have hz0 : (0 : ℤ) ≤ X % m := Int.emod_nonneg X hmz
  have hzlt : X % m < m := Int.emod_lt_of_pos X hmpos
  have hnorm : (X % m + m) % m = X % m := by
    have : X % m + (m : ℤ) = X % m + m * 1 := by ring
    rw [this, Int.add_mul_emod_self_left, Int.emod_emod_of_dvd X dvd_rfl]
  refine ⟨(X % m).toNat, ?_, ?_, ?_⟩
  · rw [modinverse]
    simp only [hg, hX, hnorm]
    norm_num
  · omega
  · have hcast : ((a * (X % m).toNat % m : ℕ) : ℤ) = (a * (X % m)) % m := by
      push_cast [Int.natCast_mod]
      rw [Int.toNat_of_nonneg hz0]
    have hmod : (a * (X % m)) % m = 1 := by
      calc (a * (X % m)) % m = ((a : ℤ) % m) * ((X % m) % m) % m := Int.mul_emod _ _ _
        _ = ((a : ℤ) % m) * (X % m) % m := by rw [Int.emod_emod_of_dvd X dvd_rfl]
        _ = (a * X) % m := (Int.mul_emod _ _ _).symm
        _ = (1 - Y * m) % m := by rw [show (a : ℤ) * X = 1 - Y * m by linarith [hbez]]
        _ = (1 + m * (-Y)) % m := by ring_nf
        _ = 1 % m := Int.add_mul_emod_self_left 1 m (-Y)
        _ = 1 := Int.emod_eq_of_lt (by norm_num) (by omega)
    have := hcast.trans hmod
    omega

theorem modinverse_eq_none (a m : ℕ) (h : Nat.gcd a m ≠ 1) :
    modinverse a m = none := by
  rw [modinverse]
  simp [(egcd_spec a m).1, h]

theorem coprime_MAX_of_odd (p : ℕ) (hodd : Odd p) : Nat.gcd p MAX = 1 := by
  rw [MAX_eq]
  exact Nat.Coprime.pow_right 31 (Nat.coprime_two_right.mpr hodd)

theorem mod_inverse_unique (a x y m : ℕ) (hx : x < m) (hy : y < m)
    (h1 : (a * x) % m = 1) (h2 : (a * y) % m = 1) : x = y := by
  have hx' : x % m = x := Nat.mod_eq_of_lt hx
  have hy' : y % m = y := Nat.mod_eq_of_lt hy
  calc x = x % m := hx'.symm
    _ = x * ((a * y) % m) % m := by rw [h2, Nat.mul_one]
    _ = x * (a * y) % m := by
        rw [Nat.mul_mod, Nat.mod_mod_of_dvd _ dvd_rfl, ← Nat.mul_mod]
    _ = a * x * y % m := by rw [show x * (a * y) = a * x * y from by ring]
    _ = (a * x) % m * y % m := Nat.mod_mul_mod.symm
    _ = y % m := by rw [h1, Nat.one_mul]
    _ = y := hy'

/-- Claim C1: for every correctly constructed engine (prime passes the
primality check and `(prime * mod_inverse) % (MAX_INT + 1) = 1`) and every
`n` in `[0, MAX_INT]`, `decode (encode n) = n`. -/
theorem optimus_roundtrip (o : Optimus) (n : ℕ)
    (hprime : miller_rabin o.prime = true)
    (hinv : (o.prime * o.mod_inverse) % (MAX_INT + 1) = 1)
    (hn : n ≤ MAX_INT) :
    o.decode (o.encode n) = n :=
  decode_encode_of_inverse o n hinv hn

/-- Witness for claim C1 at the demo engine `(1580030173, 59260789,
1163945558)` and `n = 15`. -/
theorem optimus_roundtrip_witness :
    miller_rabin (1580030173 : ℕ) = true ∧
    (1580030173 * 59260789 : ℕ) % (MAX_INT + 1) = 1 ∧
    (15 : ℕ) ≤ MAX_INT ∧
    Optimus.decode ⟨1580030173, 59260789, 1163945558⟩
      (Optimus.encode ⟨1580030173, 59260789, 1163945558⟩ 15) = 15 :=
  ⟨(mr_eq_true_iff 1580030173).mpr prime_1580030173, by decide, by decide,
    optimus_roundtrip ⟨1580030173, 59260789, 1163945558⟩ 15
      ((mr_eq_true_iff 1580030173).mpr prime_1580030173) (by decide) (by decide)⟩

/-- Claim C2: for a fixed correctly constructed engine, `encode` maps
`[0, MAX_INT]` into `[0, MAX_INT]` injectively, producing `MAX_INT + 1`
distinct outputs. -/
theorem encode_bijection (o : Optimus)
    (hinv : (o.prime * o.mod_inverse) % (MAX_INT + 1) = 1)
    (hr : o.random ≤ MAX_INT) :
    (∀ n, n ≤ MAX_INT → o.encode n ≤ MAX_INT) ∧
    (∀ m n, m ≤ MAX_INT → n ≤ MAX_INT → o.encode m = o.encode n → m = n) ∧
    ((Finset.range (MAX_INT + 1)).image o.encode).card = MAX_INT + 1 := by
  have hinj : ∀ m n, m ≤ MAX_INT → n ≤ MAX_INT → o.encode m = o.encode n → m = n := by
    intro m n hm hn h
    have h1 := decode_encode_of_inverse o m hinv hm
    have h2 := decode_encode_of_inverse o n hinv hn
    rw [← h1, ← h2, h]
  refine ⟨fun n _ => encode_le_MAX_INT o n hr, hinj, ?_⟩
  rw [Finset.card_image_of_injOn, Finset.card_range]
  intro m hm n hn h
  simp only [Finset.coe_range, Set.mem_Iio] at hm hn
  exact hinj m n (by omega) (by omega) h

/-- Witness for claim C2 at the test engine `(309779747, 49560203, 57733611)`. -/
theorem encode_bijection_witness :
    (309779747 * 49560203 : ℕ) % (MAX_INT + 1) = 1 ∧
    (57733611 : ℕ) ≤ MAX_INT ∧
    (∀ n, n ≤ MAX_INT → Optimus.encode ⟨309779747, 49560203, 57733611⟩ n ≤ MAX_INT) :=
  ⟨by decide, by decide,
    (encode_bijection ⟨309779747, 49560203, 57733611⟩ (by decide) (by decide)).1⟩

/-- Claim C3: under the stated bounds, `encode` computes
`((n * prime) mod 2^31) XOR random`, `decode` computes
`((n XOR random) * mod_inverse) mod 2^31`, and the bitwise AND with
`MAX_INT` coincides with reduction modulo `MAX_INT + 1 = 2^31`. -/
theorem encode_decode_formula (o : Optimus) (n : ℕ)
    (hp : o.prime ≤ MAX_INT) (hmi : o.mod_inverse ≤ MAX_INT)
    (hr : o.random ≤ MAX_INT) (hn : n ≤ MAX_INT) :
    o.encode n = ((n * o.prime) % (MAX_INT + 1)) ^^^ o.random ∧
    o.decode n = ((n ^^^ o.random) * o.mod_inverse) % (MAX_INT + 1) ∧
    (∀ x : ℕ, x &&& MAX_INT = x % (MAX_INT + 1)) :=
  ⟨encode_eq_mod o n, decode_eq_mod o n, fun x => and_MAX_INT x⟩

/-- Witness for claim C3 at the demo engine and `n = 15`. -/
theorem encode_decode_formula_witness :
    (1580030173 : ℕ) ≤ MAX_INT ∧ (59260789 : ℕ) ≤ MAX_INT ∧
    (1163945558 : ℕ) ≤ MAX_INT ∧ (15 : ℕ) ≤ MAX_INT ∧
    Optimus.encode ⟨1580030173, 59260789, 1163945558⟩ 15 =
      ((15 * 1580030173) % (MAX_INT + 1)) ^^^ 1163945558 :=
  ⟨by decide, by decide, by decide, by decide,
    (encode_decode_formula ⟨1580030173, 59260789, 1163945558⟩ 15
      (by decide) (by decide) (by decide) (by decide)).1⟩

/-- Claim C4: for every odd prime `p` with `2 < p < MAX_INT + 1`,
`calc_mod_inverse p` returns `Ok x` with `x < MAX_INT + 1` and
`(p * x) % (MAX_INT + 1) = 1`; concretely,
`calc_mod_inverse 309779747 = Ok 49560203`. -/
theorem calc_mod_inverse_correct :
    (∀ p : ℕ, Nat.Prime p → p % 2 = 1 → 2 < p → p < MAX_INT + 1 →
      ∃ x, Optimus.calc_mod_inverse p = .ok x ∧ x < MAX_INT + 1 ∧
        (p * x) % (MAX_INT + 1) = 1) ∧
    Optimus.calc_mod_inverse 309779747 = .ok 49560203 := by
  have hgen : ∀ p : ℕ, Nat.Prime p → p % 2 = 1 →
      ∃ x, Optimus.calc_mod_inverse p = .ok x ∧ x < MAX ∧ (p * x) % MAX = 1 := by
    intro p hp hodd
    have hcop : Nat.gcd p MAX = 1 := coprime_MAX_of_odd p (Nat.odd_iff.mpr hodd)
    obtain ⟨x, hsome, hxlt, hxinv⟩ :=
      modinverse_eq_some p MAX (by rw [MAX_eq]; norm_num) hcop
    refine ⟨x, ?_, hxlt, hxinv⟩
    simp [Optimus.calc_mod_inverse, (mr_eq_true_iff p).mpr hp, hsome]
  constructor
  · intro p hp hodd _ _
    exact hgen p hp hodd
  · obtain ⟨x, hok, hxlt, hxinv⟩ := hgen 309779747 prime_309779747 (by norm_num)
    have hx : x = 49560203 :=
      mod_inverse_unique 309779747 x 49560203 MAX hxlt (by decide) hxinv (by decide)
    rw [hok, hx]

/-- Witness for claim C4 at the odd prime `p = 5`. -/
theorem calc_mod_inverse_correct_witness :
    Nat.Prime 5 ∧ (5 : ℕ) % 2 = 1 ∧ 2 < 5 ∧ (5 : ℕ) < MAX_INT + 1 ∧
    ∃ x, Optimus.calc_mod_inverse 5 = .ok x ∧ x < MAX_INT + 1 ∧
      (5 * x) % (MAX_INT + 1) = 1 :=
  ⟨by norm_num, by norm_num, by norm_num, by decide,
    calc_mod_inverse_correct.1 5 (by norm_num) (by norm_num) (by norm_num) (by decide)⟩

/-- Claim C5: `Optimus::new` fails with `NotPrime` exactly when the primality
check rejects `prime`; when it accepts, construction succeeds for every
`mod_inverse` and `random` (never verified), and the fields equal the
arguments. -/
theorem new_spec (p mi r : ℕ) :
    (Optimus.new p mi r = .error .NotPrime ↔ miller_rabin p = false) ∧
    (miller_rabin p = true → Optimus.new p mi r = .ok ⟨p, mi, r⟩) := by
  cases hmr : miller_rabin p with
  | false =>
    constructor
    · simp [Optimus.new, hmr]
    · intro h
      simp at h
  | true =>
    constructor
    · simp [Optimus.new, hmr]
    · intro _
      simp [Optimus.new, hmr]

/-- Witness for claim C5 at `new 2 5 7` (2 is prime, the supplied inverse 5
is wrong yet construction succeeds with the fields stored verbatim). -/
theorem new_spec_witness :
    miller_rabin 2 = true ∧ Optimus.new 2 5 7 = .ok ⟨2, 5, 7⟩ :=
  have h2 : miller_rabin 2 = true := (mr_eq_true_iff 2).mpr Nat.prime_two
  ⟨h2, (new_spec 2 5 7).2 h2⟩

/-- Claim C6: among primes, `calc_mod_inverse` fails with `NoModInverse` only
for `p = 2`; `new_calculated` fails with `NotPrime` on non-primes, with
`NoModInverse` on 2, and succeeds on every other prime. -/
theorem error_paths :
    (∀ p : ℕ, Nat.Prime p → Optimus.calc_mod_inverse p = .error .NoModInverse → p = 2) ∧
    (∀ p r : ℕ, ¬ Nat.Prime p → Optimus.new_calculated p r = .error .NotPrime) ∧
    (∀ r : ℕ, Optimus.new_calculated 2 r = .error .NoModInverse) ∧
    (∀ p r : ℕ, Nat.Prime p → p ≠ 2 → ∃ o, Optimus.new_calculated p r = .ok o) := by
  have hok : ∀ p : ℕ, Nat.Prime p → p ≠ 2 →
      ∃ x, Optimus.calc_mod_inverse p = .ok x := by
    intro p hp hne
    have hcop : Nat.gcd p MAX = 1 := coprime_MAX_of_odd p (hp.odd_of_ne_two hne)
    obtain ⟨x, hsome, _, _⟩ :=
      modinverse_eq_some p MAX (by rw [MAX_eq]; norm_num) hcop
    exact ⟨x, by simp [Optimus.calc_mod_inverse, (mr_eq_true_iff p).mpr hp, hsome]⟩
  refine ⟨?_, ?_, ?_, ?_⟩
  · intro p hp herr
    by_contra hne
    obtain ⟨x, hok2⟩ := hok p hp hne
    rw [hok2] at herr
    cases herr
  · intro p r hnp
    simp [Optimus.new_calculated, Optimus.calc_mod_inverse, (mr_eq_false_iff p).mpr hnp]
  · intro r
    have hnone : modinverse 2 MAX = none := by
      apply modinverse_eq_none
      rw [MAX_eq]
      norm_num
    simp [Optimus.new_calculated, Optimus.calc_mod_inverse,
      (mr_eq_true_iff 2).mpr Nat.prime_two, hnone]
  · intro p r hp hne
    obtain ⟨x, hcalc⟩ := hok p hp hne
    exact ⟨⟨p, x, r⟩,
      by simp [Optimus.new_calculated, hcalc, Optimus.new, (mr_eq_true_iff p).mpr hp]⟩

/-- Witness for claim C6: the prime 3 is accepted by `new_calculated`. -/
theorem error_paths_witness :
    Nat.Prime 3 ∧ (3 : ℕ) ≠ 2 ∧ ∃ o, Optimus.new_calculated 3 0 = .ok o :=
  ⟨by norm_num, by norm_num, error_paths.2.2.2 3 0 (by norm_num) (by norm_num)⟩

/-- Claim C7: the primality check classifies 0, 1 as not prime, 2 as prime,
even numbers above 2 as not prime; `new` rejects 4, 15, 100 with `NotPrime`
and accepts 2, 3, 309779747. -/
theorem primality_classification :
    miller_rabin 0 = false ∧ miller_rabin 1 = false ∧ miller_rabin 2 = true ∧
    (∀ k : ℕ, 2 < k → k % 2 = 0 → miller_rabin k = false) ∧
    (∀ mi r : ℕ, Optimus.new 4 mi r = .error .NotPrime) ∧
    (∀ mi r : ℕ, Optimus.new 15 mi r = .error .NotPrime) ∧
    (∀ mi r : ℕ, Optimus.new 100 mi r = .error .NotPrime) ∧
    (∀ mi r : ℕ, Optimus.new 2 mi r = .ok ⟨2, mi, r⟩) ∧
    (∀ mi r : ℕ, Optimus.new 3 mi r = .ok ⟨3, mi, r⟩) ∧
    (∀ mi r : ℕ, Optimus.new 309779747 mi r = .ok ⟨309779747, mi, r⟩) := by
  refine ⟨(mr_eq_false_iff 0).mpr (by norm_num),
    (mr_eq_false_iff 1).mpr (by norm_num),
    (mr_eq_true_iff 2).mpr Nat.prime_two, ?_, ?_, ?_, ?_, ?_, ?_, ?_⟩
  · intro k h2 heven
    apply (mr_eq_false_iff k).mpr
    intro hp
    have := (Nat.Prime.even_iff hp).mp (Nat.even_iff.mpr heven)
    omega
  · intro mi r
    simp [Optimus.new, (mr_eq_false_iff 4).mpr (by norm_num)]
  · intro mi r
    simp [Optimus.new, (mr_eq_false_iff 15).mpr (by norm_num)]
  · intro mi r
    simp [Optimus.new, (mr_eq_false_iff 100).mpr (by norm_num)]
  · intro mi r
    simp [Optimus.new, (mr_eq_true_iff 2).mpr Nat.prime_two]
  · intro mi r
    simp [Optimus.new, (mr_eq_true_iff 3).mpr Nat.prime_three]
  · intro mi r
    simp [Optimus.new, (mr_eq_true_iff 309779747).mpr prime_309779747]

/-- Witness for claim C7: the even number 10 above 2 is rejected. -/
theorem primality_classification_witness : miller_rabin 10 = false :=
  primality_classification.2.2.2.1 10 (by norm_num) (by norm_num)

/-- Claim C8: the demo scenario: construction with
`(1580030173, 59260789, 1163945558)` succeeds, `encode 15 = 1103647397` and
`decode 1103647397 = 15`. -/
theorem demo_scenario :
    Optimus.new 1580030173 59260789 1163945558 =
      .ok ⟨1580030173, 59260789, 1163945558⟩ ∧
    Optimus.encode ⟨1580030173, 59260789, 1163945558⟩ 15 = 1103647397 ∧
    Optimus.decode ⟨1580030173, 59260789, 1163945558⟩ 1103647397 = 15 :=
  ⟨by simp [Optimus.new, (mr_eq_true_iff 1580030173).mpr prime_1580030173],
    by decide, by decide⟩

/-- Claim C9: for every engine, `encode 0 = random`: the zero input returns
the XOR mask verbatim. -/
theorem encode_zero_eq_random (o : Optimus) : o.encode 0 = o.random := by
  simp [Optimus.encode]

/-- Claim C10: with all three fields and the input bounded by `MAX_INT`, the
`u64` products inside `encode` and `decode` stay below `2^62`, so the
wrapping reduction is the identity and both functions compute the unwrapped
expressions. -/
theorem no_overflow (o : Optimus) (n : ℕ)
    (hp : o.prime ≤ MAX_INT) (hmi : o.mod_inverse ≤ MAX_INT)
    (hr : o.random ≤ MAX_INT) (hn : n ≤ MAX_INT) :
    n * o.prime < 2 ^ 62 ∧
    (n ^^^ o.random) * o.mod_inverse < 2 ^ 62 ∧
    (n * o.prime) % U64SIZE = n * o.prime ∧
    ((n ^^^ o.random) * o.mod_inverse) % U64SIZE = (n ^^^ o.random) * o.mod_inverse ∧
    o.encode n = ((n * o.prime) &&& MAX_INT) ^^^ o.random ∧
    o.decode n = ((n ^^^ o.random) * o.mod_inverse) &&& MAX_INT := by
  have hM : MAX_INT = 2 ^ 31 - 1 := by norm_num [MAX_INT]
  have h1 : n * o.prime < 2 ^ 62 := by
    calc n * o.prime ≤ MAX_INT * MAX_INT := Nat.mul_le_mul hn hp
      _ < 2 ^ 62 := by norm_num [MAX_INT]
  have hxor : n ^^^ o.random < 2 ^ 31 := Nat.xor_lt_two_pow (by omega) (by omega)
  have h2 : (n ^^^ o.random) * o.mod_inverse < 2 ^ 62 := by
    calc (n ^^^ o.random) * o.mod_inverse ≤ (2 ^ 31 - 1) * (2 ^ 31 - 1) :=
          Nat.mul_le_mul (by omega) (by omega)
      _ < 2 ^ 62 := by norm_num
  have hu1 : (n * o.prime) % U64SIZE = n * o.prime :=
    Nat.mod_eq_of_lt (lt_trans h1 (by norm_num [U64SIZE]))
  have hu2 : ((n ^^^ o.random) * o.mod_inverse) % U64SIZE =
      (n ^^^ o.random) * o.mod_inverse :=
    Nat.mod_eq_of_lt (lt_trans h2 (by norm_num [U64SIZE]))
  refine ⟨h1, h2, hu1, hu2, ?_, ?_⟩
  · rw [Optimus.encode, hu1]
  · rw [Optimus.decode, hu2]

/-- Witness for claim C10 at the demo engine and `n = 15`. -/
theorem no_overflow_witness :
    (1580030173 : ℕ) ≤ MAX_INT ∧ (59260789 : ℕ) ≤ MAX_INT ∧
    (1163945558 : ℕ) ≤ MAX_INT ∧ (15 : ℕ) ≤ MAX_INT ∧
    (15 * 1580030173 : ℕ) < 2 ^ 62 :=
  ⟨by decide, by decide, by decide, by decide,
    (no_overflow ⟨1580030173, 59260789, 1163945558⟩ 15
      (by decide) (by decide) (by decide) (by decide)).1⟩
